import Mathlib

/-!
Shallow embedding of the memecoin NEAR contract (`src/lib.rs`).

Accounts are modelled as natural numbers; `u128`/`u64` quantities are
modelled as `Nat` (every subtraction in the source is guarded by a
sufficiency assertion, so no wrap-around is observable).  The persistent
`LookupMap`s become total functions with the source's `unwrap_or(0)`
(resp. `Option`) defaults built in.  Each public method becomes a function
`Contract → args → Except ContractError Contract`; a failed assertion is
an `error` and commits nothing, mirroring the host's all-or-nothing
rollback described for the contract.
-/

abbrev AccountId := Nat

/-- Pointwise map update: the effect of `LookupMap::insert`. -/
def insertMap {β : Type} (m : Nat → β) (k : Nat) (v : β) : Nat → β :=
  fun x => if x = k then v else m x

/-- Governance proposal record (struct `Proposal` in the source). -/
structure Proposal where
  id : Nat
  description : String
  votes_for : Nat
  votes_against : Nat
  deadline : Nat
  finalized : Bool
deriving DecidableEq

/-- Error kinds corresponding to the `assert!`/`expect` failures in the source. -/
inductive ContractError where
  | InsufficientDeposit
  | InsufficientBalance
  | InsufficientStake
  | NoStake
  | NoVotingPower
  | NotAdmin
  | SelfReferral
  | AlreadyRegistered
  | ProposalNotFound
  | VotingEnded
  | VotingNotEnded
  | NftDepositTooLow
deriving DecidableEq

/-- Contract state (struct `Contract` in the source). -/
structure Contract where
  balances : AccountId → Nat
  total_supply : Nat
  admin : AccountId
  referrals : AccountId → Option AccountId
  staked : AccountId → Nat
  proposals : Nat → Option Proposal
  next_proposal_id : Nat
  tip_totals : AccountId → Nat
  top_tipper : Option AccountId

/-- Method `new()`: fresh state, the caller becomes the admin, all maps empty. -/
def Contract.new (admin : AccountId) : Contract where
  balances := fun _ => 0
  total_supply := 0
  admin := admin
  referrals := fun _ => none
  staked := fun _ => 0
  proposals := fun _ => none
  next_proposal_id := 0
  tip_totals := fun _ => 0
  top_tipper := none

/-- Minimum mint deposit: 0.01 NEAR = 1e16 yoctoNEAR. -/
def MIN_DEPOSIT : Nat := 10000000000000000

/-- 7 days in nanoseconds, the fixed voting window used by `propose`. -/
def SEVEN_DAYS : Nat := 7 * 24 * 60 * 60 * 1000000000

/-- Method `mint`: credits the attached deposit, plus a 1% bonus to a registered referrer. -/
def mint (s : Contract) (caller : AccountId) (deposit_amount : Nat) :
    Except ContractError Contract :=
  if deposit_amount < MIN_DEPOSIT then
    .error .InsufficientDeposit
  else
    let new_balance := s.balances caller + deposit_amount
    let b1 := insertMap s.balances caller new_balance
    let ts1 := s.total_supply + deposit_amount
    match s.referrals caller with
    | some referrer =>
      let bonus := deposit_amount / 100
      let new_ref_balance := b1 referrer + bonus
      .ok { s with balances := insertMap b1 referrer new_ref_balance,
                   total_supply := ts1 + bonus }
    | none =>
      .ok { s with balances := b1, total_supply := ts1 }

/-- Method `get_balance`: 0 for unknown accounts. -/
def get_balance (s : Contract) (account : AccountId) : Nat :=
  s.balances account

/-- Method `get_total_supply`. -/
def get_total_supply (s : Contract) : Nat :=
  s.total_supply

/-- Method `tip`: transfer from caller to receiver, update tip totals and the top tipper. -/
def tip (s : Contract) (sender receiver : AccountId) (amount : Nat) :
    Except ContractError Contract :=
  let sender_balance := s.balances sender
  if sender_balance < amount then
    .error .InsufficientBalance
  else
    let b1 := insertMap s.balances sender (sender_balance - amount)
    let b2 := insertMap b1 receiver (b1 receiver + amount)
    let total_tip := s.tip_totals sender + amount
    let tt := insertMap s.tip_totals sender total_tip
    let new_top :=
      match s.top_tipper with
      | some current_top =>
        if tt current_top < total_tip then some sender else some current_top
      | none => some sender
    .ok { s with balances := b2, tip_totals := tt, top_tipper := new_top }

/-- Method `withdraw`: debits the caller's ledger balance; `total_supply` untouched. -/
def withdraw (s : Contract) (caller : AccountId) (amount : Nat) :
    Except ContractError Contract :=
  let sender_balance := s.balances caller
  if sender_balance < amount then
    .error .InsufficientBalance
  else
    .ok { s with balances := insertMap s.balances caller (sender_balance - amount) }

/-- Method `burn`: debits the caller and decrements `total_supply`. -/
def burn (s : Contract) (caller : AccountId) (amount : Nat) :
    Except ContractError Contract :=
  let current_balance := s.balances caller
  if current_balance < amount then
    .error .InsufficientBalance
  else
    .ok { s with balances := insertMap s.balances caller (current_balance - amount),
                 total_supply := s.total_supply - amount }

/-- Method `stake`: moves tokens from available balance into staked balance. -/
def stake (s : Contract) (caller : AccountId) (amount : Nat) :
    Except ContractError Contract :=
  let available := s.balances caller
  if available < amount then
    .error .InsufficientBalance
  else
    .ok { s with balances := insertMap s.balances caller (available - amount),
                 staked := insertMap s.staked caller (s.staked caller + amount) }

/-- Method `unstake`: moves tokens from staked balance back to available balance. -/
def unstake (s : Contract) (caller : AccountId) (amount : Nat) :
    Except ContractError Contract :=
  let current_staked := s.staked caller
  if current_staked < amount then
    .error .InsufficientStake
  else
    .ok { s with staked := insertMap s.staked caller (current_staked - amount),
                 balances := insertMap s.balances caller (s.balances caller + amount) }

/-- Method `claim_rewards`: mints 5% of the caller's staked amount into available balance. -/
def claim_rewards (s : Contract) (caller : AccountId) :
    Except ContractError Contract :=
  let staked_amount := s.staked caller
  if staked_amount = 0 then
    .error .NoStake
  else
    let reward := staked_amount * 5 / 100
    .ok { s with balances := insertMap s.balances caller (s.balances caller + reward),
                 total_supply := s.total_supply + reward }

/-- Method `register_referral`: records a one-time referrer for the caller. -/
def register_referral (s : Contract) (caller referrer : AccountId) :
    Except ContractError Contract :=
  if caller = referrer then
    .error .SelfReferral
  else
    match s.referrals caller with
    | some _ => .error .AlreadyRegistered
    | none => .ok { s with referrals := insertMap s.referrals caller (some referrer) }

/-- Method `propose` (admin only): creates a proposal with a 7-day deadline. -/
def propose (s : Contract) (caller : AccountId) (description : String) (now : Nat) :
    Except ContractError Contract :=
  if caller = s.admin then
    let p : Proposal :=
      { id := s.next_proposal_id
        description := description
        votes_for := 0
        votes_against := 0
        deadline := now + SEVEN_DAYS
        finalized := false }
    .ok { s with proposals := insertMap s.proposals s.next_proposal_id (some p),
                 next_proposal_id := s.next_proposal_id + 1 }
  else
    .error .NotAdmin

/-- Method `vote`: weighs the vote by the caller's current balance. -/
def vote (s : Contract) (caller : AccountId) (proposal_id : Nat) (support : Bool)
    (now : Nat) : Except ContractError Contract :=
  let voter_balance := s.balances caller
  if voter_balance = 0 then
    .error .NoVotingPower
  else
    match s.proposals proposal_id with
    | none => .error .ProposalNotFound
    | some proposal =>
      if now < proposal.deadline then
        let p2 :=
          if support then
            { proposal with votes_for := proposal.votes_for + voter_balance }
          else
            { proposal with votes_against := proposal.votes_against + voter_balance }
        .ok { s with proposals := insertMap s.proposals proposal_id (some p2) }
      else
        .error .VotingEnded

/-- Method `finalize_proposal` (admin only): marks a proposal finalized once its deadline passed. -/
def finalize_proposal (s : Contract) (caller : AccountId) (proposal_id : Nat)
    (now : Nat) : Except ContractError Contract :=
  if caller = s.admin then
    match s.proposals proposal_id with
    | none => .error .ProposalNotFound
    | some proposal =>
      if now < proposal.deadline then
        .error .VotingNotEnded
      else
        .ok { s with proposals :=
                insertMap s.proposals proposal_id (some { proposal with finalized := true }) }
  else
    .error .NotAdmin

/-- Method `nft_mint` stub: only an authorization check, no state mutation. -/
def nft_mint (s : Contract) (deposit_amount : Nat) :
    Except ContractError Contract :=
  if deposit_amount ≤ 1 then
    .error .NftDepositTooLow
  else
    .ok s

/-- Method `get_top_tipper`. -/
def get_top_tipper (s : Contract) : Option AccountId :=
  s.top_tipper

/-- One external call to the contract, with its host-supplied context
(caller identity, attached deposit, block timestamp) made explicit. -/
inductive Op where
  | mint (caller : AccountId) (deposit_amount : Nat)
  | tip (sender receiver : AccountId) (amount : Nat)
  | withdraw (caller : AccountId) (amount : Nat)
  | burn (caller : AccountId) (amount : Nat)
  | stake (caller : AccountId) (amount : Nat)
  | unstake (caller : AccountId) (amount : Nat)
  | claim_rewards (caller : AccountId)
  | register_referral (caller referrer : AccountId)
  | propose (caller : AccountId) (description : String) (now : Nat)
  | vote (caller : AccountId) (proposal_id : Nat) (support : Bool) (now : Nat)
  | finalize_proposal (caller : AccountId) (proposal_id : Nat) (now : Nat)
  | nft_mint (caller : AccountId) (deposit_amount : Nat)

/-- Dispatch one call. -/
def applyOp (s : Contract) : Op → Except ContractError Contract
  | .mint caller d => mint s caller d
  | .tip sender receiver amount => tip s sender receiver amount
  | .withdraw caller amount => withdraw s caller amount
  | .burn caller amount => burn s caller amount
  | .stake caller amount => stake s caller amount
  | .unstake caller amount => unstake s caller amount
  | .claim_rewards caller => claim_rewards s caller
  | .register_referral caller referrer => register_referral s caller referrer
  | .propose caller description now => propose s caller description now
  | .vote caller pid support now => vote s caller pid support now
  | .finalize_proposal caller pid now => finalize_proposal s caller pid now
  | .nft_mint _ d => nft_mint s d

/-- A failed call commits nothing: the state is unchanged. -/
def stepResult (s : Contract) (op : Op) : Contract :=
  match applyOp s op with
  | .ok s2 => s2
  | .error _ => s

/-- Run a sequence of external calls. -/
def run (s : Contract) (ops : List Op) : Contract :=
  ops.foldl stepResult s

/-- States reachable from a fresh contract whose admin is `admin`. -/
def reach (admin : AccountId) (ops : List Op) : Contract :=
  run (Contract.new admin) ops

/-- No referral edge points back to its own account. -/
def NoSelfReferral (s : Contract) : Prop :=
  ∀ a r, s.referrals a = some r → r ≠ a

/-- State for the C6 witness: admin 0, account 1 funded, proposal 0 open. -/
def c6state : Contract := reach 0 [Op.mint 1 MIN_DEPOSIT, Op.propose 0 "" 0]

/-- Proposal 0 as stored in `c6state`. -/
def c6prop : Proposal :=
  { id := 0, description := "", votes_for := 0, votes_against := 0,
    deadline := 0 + SEVEN_DAYS, finalized := false }

/-- Proposal ids at or above `next_proposal_id` are unused. -/
def ProposalIdsBounded (s : Contract) : Prop :=
  ∀ pid, s.next_proposal_id ≤ pid → s.proposals pid = none

/-- State for the C1 theorems: admin 0 creates proposal 0 at time 0. -/
def c1state : Contract := reach 0 [Op.propose 0 "" 0]

/-- Proposal 0 as stored in `c1state`. -/
def c1prop : Proposal :=
  { id := 0, description := "", votes_for := 0, votes_against := 0,
    deadline := 0 + SEVEN_DAYS, finalized := false }

/-- Proposal 0 after finalization. -/
def c1fin : Proposal := { c1prop with finalized := true }

/-- State `c1state` after the admin finalizes proposal 0 at its deadline. -/
def c1done : Contract := reach 0 [Op.propose 0 "" 0, Op.finalize_proposal 0 0 SEVEN_DAYS]

/-- The recorded top tipper has a maximal cumulative tip total, and while
no top tipper is recorded every tip total is zero. -/
def TopTipperInv (s : Contract) : Prop :=
  (∀ t, s.top_tipper = some t → ∀ a, s.tip_totals a ≤ s.tip_totals t) ∧
  (s.top_tipper = none → ∀ a, s.tip_totals a = 0)

/-- Call sequence and state for the C4 witness: accounts 1 and 2 funded,
account 1 has tipped 5, so it is the top tipper. -/
def c4ops : List Op := [Op.mint 1 MIN_DEPOSIT, Op.mint 2 MIN_DEPOSIT, Op.tip 1 3 5]

def c4state : Contract := reach 0 c4ops

-- ### Basic lemmas

theorem run_nil (s : Contract) : run s [] = s := rfl

theorem run_cons (s : Contract) (op : Op) (ops : List Op) :
    run s (op :: ops) = run (stepResult s op) ops := rfl

/-- Invariant propagation along a run. -/
theorem run_preserves {P : Contract → Prop}
    (hstep : ∀ s op, P s → P (stepResult s op)) :
    ∀ (ops : List Op) (s : Contract), P s → P (run s ops) := by
  intro ops
  induction ops with
  | nil => intro s h; exact h
  | cons op rest ih =>
    intro s h
    exact ih (stepResult s op) (hstep s op h)

theorem insertMap_same {β : Type} (m : Nat → β) (k : Nat) (v : β) :
    insertMap m k v k = v := by
  simp [insertMap]

theorem insertMap_other {β : Type} (m : Nat → β) (k x : Nat) (v : β) (h : x ≠ k) :
    insertMap m k v x = m x := by
  simp [insertMap, h]

/-- Claim C3: a successful tip conserves the sum of sender and receiver
balances (both balances individually when sender = receiver), leaves
`total_supply` unchanged, and increments the sender's tip total by the
tipped amount. -/
theorem C3_tip_conserves (s : Contract) (sender receiver : AccountId) (amount : Nat)
    (h : amount ≤ s.balances sender) :
    ∃ s2, tip s sender receiver amount = .ok s2 ∧
      s2.balances sender + s2.balances receiver = s.balances sender + s.balances receiver ∧
      (sender = receiver →
        s2.balances sender = s.balances sender ∧
        s2.balances receiver = s.balances receiver) ∧
      s2.total_supply = s.total_supply ∧
      s2.tip_totals sender = s.tip_totals sender + amount := by
  have hlt : ¬ s.balances sender < amount := not_lt.mpr h
  simp only [tip, hlt, if_false]
  refine ⟨_, rfl, ?_, ?_, ?_, ?_⟩
  · by_cases hsr : sender = receiver
    · subst hsr
      simp [insertMap]
      omega
    · have hrs : receiver ≠ sender := fun he => hsr he.symm
      simp [insertMap, hsr, hrs]
      omega
  · intro hsr
    subst hsr
    constructor <;> (simp [insertMap]; omega)
  · rfl
  · simp [insertMap]

/-- Claim C3 witness: concrete instantiation after minting to account 1. -/
theorem C3_tip_conserves_witness :
    3 ≤ (reach 0 [Op.mint 1 MIN_DEPOSIT]).balances 1 ∧
    (∃ s2, tip (reach 0 [Op.mint 1 MIN_DEPOSIT]) 1 2 3 = .ok s2 ∧
      s2.balances 1 + s2.balances 2 =
        (reach 0 [Op.mint 1 MIN_DEPOSIT]).balances 1 +
          (reach 0 [Op.mint 1 MIN_DEPOSIT]).balances 2 ∧
      ((1 : AccountId) = 2 →
        s2.balances 1 = (reach 0 [Op.mint 1 MIN_DEPOSIT]).balances 1 ∧
        s2.balances 2 = (reach 0 [Op.mint 1 MIN_DEPOSIT]).balances 2) ∧
      s2.total_supply = (reach 0 [Op.mint 1 MIN_DEPOSIT]).total_supply ∧
      s2.tip_totals 1 = (reach 0 [Op.mint 1 MIN_DEPOSIT]).tip_totals 1 + 3) :=
  ⟨by decide, C3_tip_conserves (reach 0 [Op.mint 1 MIN_DEPOSIT]) 1 2 3 (by decide)⟩

theorem insertMap_self {β : Type} (m : Nat → β) (k : Nat) :
    insertMap m k (m k) = m := by
  funext x
  by_cases h : x = k <;> simp [insertMap, h]

/-- Claim C10: a zero-amount tip always succeeds, for any caller balance
(the sufficiency check `0 ≥ 0` passes): every balance, `total_supply` and
every tip total are left unchanged (the caller's tip total is re-inserted
at its previous value, 0 for a first-time tipper), and when there is no
current top tipper the caller is installed as top tipper even though its
cumulative tip total may be 0. -/
theorem C10_zero_tip (s : Contract) (caller receiver : AccountId) :
    ∃ s2, tip s caller receiver 0 = .ok s2 ∧
      (∀ a, s2.balances a = s.balances a) ∧
      s2.total_supply = s.total_supply ∧
      (∀ a, s2.tip_totals a = s.tip_totals a) ∧
      s2.tip_totals caller = s.tip_totals caller ∧
      (s.top_tipper = none → s2.top_tipper = some caller) := by
  have hlt : ¬ s.balances caller < 0 := Nat.not_lt_zero _
  simp only [tip, hlt, if_false, Nat.sub_zero, Nat.add_zero, insertMap_self]
  refine ⟨_, rfl, fun a => rfl, rfl, fun a => rfl, rfl, ?_⟩
  intro hnone
  simp [hnone]

/-- Claim C10 witness: account 5 with balance 0 tips 0 to account 7 in the
fresh state, which has no top tipper. -/
theorem C10_zero_tip_witness :
    (Contract.new 0).top_tipper = none ∧
    (∃ s2, tip (Contract.new 0) 5 7 0 = .ok s2 ∧
      (∀ a, s2.balances a = (Contract.new 0).balances a) ∧
      s2.total_supply = (Contract.new 0).total_supply ∧
      (∀ a, s2.tip_totals a = (Contract.new 0).tip_totals a) ∧
      s2.tip_totals 5 = (Contract.new 0).tip_totals 5 ∧
      ((Contract.new 0).top_tipper = none → s2.top_tipper = some 5)) :=
  ⟨rfl, C10_zero_tip (Contract.new 0) 5 7⟩

/-- Claim C7: with a sufficient balance, `withdraw` debits the caller by
exactly the requested amount and leaves `total_supply` unchanged, while
`burn` debits the caller and also decrements `total_supply` by exactly
that amount. -/
theorem C7_withdraw_burn (s : Contract) (caller : AccountId) (amount : Nat)
    (h : amount ≤ s.balances caller) :
    (∃ s2, withdraw s caller amount = .ok s2 ∧
      s2.balances caller = s.balances caller - amount ∧
      s2.total_supply = s.total_supply ∧
      (∀ a, a ≠ caller → s2.balances a = s.balances a)) ∧
    (∃ s3, burn s caller amount = .ok s3 ∧
      s3.balances caller = s.balances caller - amount ∧
      s3.total_supply = s.total_supply - amount ∧
      (∀ a, a ≠ caller → s3.balances a = s.balances a)) := by
  have hlt : ¬ s.balances caller < amount := not_lt.mpr h
  constructor
  · simp only [withdraw, hlt, if_false]
    exact ⟨_, rfl, insertMap_same _ _ _, rfl, fun a ha => insertMap_other _ _ _ _ ha⟩
  · simp only [burn, hlt, if_false]
    exact ⟨_, rfl, insertMap_same _ _ _, rfl, fun a ha => insertMap_other _ _ _ _ ha⟩

/-- Claim C7 witness: account 1 mints the minimum deposit, then withdraws
and burns 3 units. -/
theorem C7_withdraw_burn_witness :
    3 ≤ (reach 0 [Op.mint 1 MIN_DEPOSIT]).balances 1 ∧
    ((∃ s2, withdraw (reach 0 [Op.mint 1 MIN_DEPOSIT]) 1 3 = .ok s2 ∧
      s2.balances 1 = (reach 0 [Op.mint 1 MIN_DEPOSIT]).balances 1 - 3 ∧
      s2.total_supply = (reach 0 [Op.mint 1 MIN_DEPOSIT]).total_supply ∧
      (∀ a, a ≠ 1 → s2.balances a = (reach 0 [Op.mint 1 MIN_DEPOSIT]).balances a)) ∧
    (∃ s3, burn (reach 0 [Op.mint 1 MIN_DEPOSIT]) 1 3 = .ok s3 ∧
      s3.balances 1 = (reach 0 [Op.mint 1 MIN_DEPOSIT]).balances 1 - 3 ∧
      s3.total_supply = (reach 0 [Op.mint 1 MIN_DEPOSIT]).total_supply - 3 ∧
      (∀ a, a ≠ 1 → s3.balances a = (reach 0 [Op.mint 1 MIN_DEPOSIT]).balances a))) :=
  ⟨by decide, C7_withdraw_burn (reach 0 [Op.mint 1 MIN_DEPOSIT]) 1 3 (by decide)⟩

/-- Claim C9: with a sufficient available balance, `stake` immediately
followed by `unstake` of the same amount, with no operation in between,
restores the caller's available balance and staked balance to their
values before the stake. -/
theorem C9_stake_unstake (s : Contract) (caller : AccountId) (amount : Nat)
    (h : amount ≤ s.balances caller) :
    ∃ s1, stake s caller amount = .ok s1 ∧
      ∃ s2, unstake s1 caller amount = .ok s2 ∧
        s2.balances caller = s.balances caller ∧
        s2.staked caller = s.staked caller := by
  have hlt : ¬ s.balances caller < amount := not_lt.mpr h
  have h2 : ¬ s.staked caller + amount < amount := by omega
  simp only [stake, hlt, if_false]
  refine ⟨_, rfl, ?_⟩
  simp only [unstake, insertMap_same, h2, if_false]
  refine ⟨_, rfl, ?_, ?_⟩
  · simp only [insertMap_same]
    omega
  · simp only [insertMap_same]
    omega

/-- Claim C9 witness: account 1 mints the minimum deposit, stakes 7 and
unstakes 7. -/
theorem C9_stake_unstake_witness :
    7 ≤ (reach 0 [Op.mint 1 MIN_DEPOSIT]).balances 1 ∧
    (∃ s1, stake (reach 0 [Op.mint 1 MIN_DEPOSIT]) 1 7 = .ok s1 ∧
      ∃ s2, unstake s1 1 7 = .ok s2 ∧
        s2.balances 1 = (reach 0 [Op.mint 1 MIN_DEPOSIT]).balances 1 ∧
        s2.staked 1 = (reach 0 [Op.mint 1 MIN_DEPOSIT]).staked 1) :=
  ⟨by decide, C9_stake_unstake (reach 0 [Op.mint 1 MIN_DEPOSIT]) 1 7 (by decide)⟩

/-- Claim C5: `claim_rewards` fails with `NoStake` when the caller has no
stake; otherwise it credits exactly `staked * 5 / 100` (integer division,
so 0 for stakes below 20) to the caller's available balance and to
`total_supply`, leaves the staked amount unchanged, and an immediate
second call credits the same reward again. -/
theorem C5_claim_rewards_spec (s : Contract) (caller : AccountId) :
    (s.staked caller = 0 → claim_rewards s caller = .error .NoStake) ∧
    (0 < s.staked caller →
      ∃ s2, claim_rewards s caller = .ok s2 ∧
        s2.balances caller = s.balances caller + s.staked caller * 5 / 100 ∧
        s2.total_supply = s.total_supply + s.staked caller * 5 / 100 ∧
        s2.staked caller = s.staked caller ∧
        (s.staked caller < 20 → s.staked caller * 5 / 100 = 0) ∧
        ∃ s3, claim_rewards s2 caller = .ok s3 ∧
          s3.balances caller = s2.balances caller + s.staked caller * 5 / 100 ∧
          s3.total_supply = s2.total_supply + s.staked caller * 5 / 100) := by
  constructor
  · intro h0
    simp [claim_rewards, h0]
  · intro hpos
    have hne : ¬ s.staked caller = 0 := by omega
    simp only [claim_rewards, hne, if_false]
    refine ⟨_, rfl, insertMap_same _ _ _, rfl, rfl, fun hsmall => by omega, ?_⟩
    simp only [claim_rewards, hne, if_false]
    refine ⟨_, rfl, ?_, ?_⟩
    · simp only [insertMap_same]
    · rfl

/-- Claim C5 witness: account 1 mints the minimum deposit and stakes 100,
so the reward is 5; also checks the zero-reward threshold at stake 19. -/
theorem C5_claim_rewards_witness :
    0 < (reach 0 [Op.mint 1 MIN_DEPOSIT, Op.stake 1 100]).staked 1 ∧
    (∃ s2,
      claim_rewards (reach 0 [Op.mint 1 MIN_DEPOSIT, Op.stake 1 100]) 1 = .ok s2 ∧
      s2.balances 1 = (reach 0 [Op.mint 1 MIN_DEPOSIT, Op.stake 1 100]).balances 1 +
        (reach 0 [Op.mint 1 MIN_DEPOSIT, Op.stake 1 100]).staked 1 * 5 / 100 ∧
      s2.total_supply = (reach 0 [Op.mint 1 MIN_DEPOSIT, Op.stake 1 100]).total_supply +
        (reach 0 [Op.mint 1 MIN_DEPOSIT, Op.stake 1 100]).staked 1 * 5 / 100 ∧
      s2.staked 1 = (reach 0 [Op.mint 1 MIN_DEPOSIT, Op.stake 1 100]).staked 1 ∧
      ((reach 0 [Op.mint 1 MIN_DEPOSIT, Op.stake 1 100]).staked 1 < 20 →
        (reach 0 [Op.mint 1 MIN_DEPOSIT, Op.stake 1 100]).staked 1 * 5 / 100 = 0) ∧
      ∃ s3, claim_rewards s2 1 = .ok s3 ∧
        s3.balances 1 = s2.balances 1 +
          (reach 0 [Op.mint 1 MIN_DEPOSIT, Op.stake 1 100]).staked 1 * 5 / 100 ∧
        s3.total_supply = s2.total_supply +
          (reach 0 [Op.mint 1 MIN_DEPOSIT, Op.stake 1 100]).staked 1 * 5 / 100) :=
  ⟨by decide,
    (C5_claim_rewards_spec (reach 0 [Op.mint 1 MIN_DEPOSIT, Op.stake 1 100]) 1).2 (by decide)⟩

-- ### Frame and invariant lemmas along arbitrary call sequences

theorem applyOp_admin (s : Contract) (op : Op) (s2 : Contract)
    (h : applyOp s op = .ok s2) : s2.admin = s.admin := by
  cases op <;>
    simp only [applyOp, mint, tip, withdraw, burn, stake, unstake, claim_rewards,
      register_referral, propose, vote, finalize_proposal, nft_mint] at h <;>
    (repeat' split at h) <;>
    cases h <;> rfl

theorem stepResult_admin (s : Contract) (op : Op) :
    (stepResult s op).admin = s.admin := by
  unfold stepResult
  cases h : applyOp s op with
  | error e => rfl
  | ok s2 => exact applyOp_admin s op s2 h

theorem run_admin (s : Contract) (ops : List Op) :
    (run s ops).admin = s.admin := by
  induction ops generalizing s with
  | nil => rfl
  | cons op rest ih => rw [run_cons, ih, stepResult_admin]

/-- An existing referral edge survives any single successful call unchanged. -/
theorem applyOp_referral_persist (s : Contract) (op : Op) (s2 : Contract)
    (a r : AccountId) (hr : s.referrals a = some r)
    (h : applyOp s op = .ok s2) : s2.referrals a = some r := by
  cases op
  case register_referral caller referrer =>
    simp only [applyOp, register_referral] at h
    split at h
    · cases h
    · split at h
      · cases h
      · rename_i hnone
        cases h
        have hac : a ≠ caller := by
          intro he
          rw [he, hnone] at hr
          exact Option.noConfusion hr
        show insertMap s.referrals caller (some referrer) a = some r
        rw [insertMap_other _ _ _ _ hac]
        exact hr
  all_goals
    simp only [applyOp, mint, tip, withdraw, burn, stake, unstake, claim_rewards,
      propose, vote, finalize_proposal, nft_mint] at h <;>
    (repeat' split at h) <;>
    cases h <;> exact hr

theorem stepResult_referral_persist (s : Contract) (op : Op) (a r : AccountId)
    (hr : s.referrals a = some r) :
    (stepResult s op).referrals a = some r := by
  unfold stepResult
  cases h : applyOp s op with
  | error e => exact hr
  | ok s2 => exact applyOp_referral_persist s op s2 a r hr h

theorem run_referral_persist (s : Contract) (ops : List Op) (a r : AccountId)
    (hr : s.referrals a = some r) :
    (run s ops).referrals a = some r :=
  run_preserves (fun s3 op h3 => stepResult_referral_persist s3 op a r h3) ops s hr

theorem applyOp_no_self_referral (s : Contract) (op : Op) (s2 : Contract)
    (hs : NoSelfReferral s) (h : applyOp s op = .ok s2) : NoSelfReferral s2 := by
  cases op
  case register_referral caller referrer =>
    intro a r hr
    simp only [applyOp, register_referral] at h
    split at h
    · cases h
    · rename_i hcr
      split at h
      · cases h
      · cases h
        have hr2 : insertMap s.referrals caller (some referrer) a = some r := hr
        by_cases hac : a = caller
        · rw [hac] at hr2
          rw [insertMap_same] at hr2
          cases hr2
          rw [hac]
          exact fun he => hcr he.symm
        · rw [insertMap_other _ _ _ _ hac] at hr2
          exact hs a r hr2
  all_goals
    intro a r hr
    refine hs a r ?_
    revert hr
    simp only [applyOp, mint, tip, withdraw, burn, stake, unstake, claim_rewards,
      propose, vote, finalize_proposal, nft_mint] at h <;>
    (repeat' split at h) <;>
    cases h <;> exact id

theorem stepResult_no_self_referral (s : Contract) (op : Op)
    (hs : NoSelfReferral s) : NoSelfReferral (stepResult s op) := by
  unfold stepResult
  cases h : applyOp s op with
  | error e => exact hs
  | ok s2 => exact applyOp_no_self_referral s op s2 hs h

theorem reach_no_self_referral (admin : AccountId) (ops : List Op) :
    NoSelfReferral (reach admin ops) :=
  run_preserves stepResult_no_self_referral ops (Contract.new admin)
    (fun _ _ h => Option.noConfusion h)

/-- Claim C2: `mint` rejects deposits below the fixed minimum with
`InsufficientDeposit`, leaving the state unchanged; with a sufficient
deposit it credits the caller by exactly the deposit; if the caller has a
registered referrer the referrer additionally gets `deposit / 100` and
`total_supply` grows by `deposit + deposit / 100`, otherwise `total_supply`
grows by exactly the deposit. -/
theorem C2_mint_spec (admin : AccountId) (ops : List Op) (caller : AccountId) (d : Nat) :
    (d < MIN_DEPOSIT →
      mint (reach admin ops) caller d = .error .InsufficientDeposit ∧
      stepResult (reach admin ops) (Op.mint caller d) = reach admin ops) ∧
    (MIN_DEPOSIT ≤ d → (reach admin ops).referrals caller = none →
      ∃ s2, mint (reach admin ops) caller d = .ok s2 ∧
        s2.balances caller = (reach admin ops).balances caller + d ∧
        (∀ a, a ≠ caller → s2.balances a = (reach admin ops).balances a) ∧
        s2.total_supply = (reach admin ops).total_supply + d) ∧
    (MIN_DEPOSIT ≤ d → ∀ r, (reach admin ops).referrals caller = some r →
      ∃ s2, mint (reach admin ops) caller d = .ok s2 ∧
        s2.balances caller = (reach admin ops).balances caller + d ∧
        s2.balances r = (reach admin ops).balances r + d / 100 ∧
        s2.total_supply = (reach admin ops).total_supply + (d + d / 100)) := by
  refine ⟨?_, ?_, ?_⟩
  · intro hd
    constructor
    · simp [mint, hd]
    · simp [stepResult, applyOp, mint, hd]
  · intro hmin hnone
    have hd : ¬ d < MIN_DEPOSIT := not_lt.mpr hmin
    simp only [mint, hd, if_false, hnone]
    exact ⟨_, rfl, insertMap_same _ _ _,
      fun a ha => insertMap_other _ _ _ _ ha, rfl⟩
  · intro hmin r hr
    have hd : ¬ d < MIN_DEPOSIT := not_lt.mpr hmin
    have hrc : r ≠ caller := reach_no_self_referral admin ops caller r hr
    simp only [mint, hd, if_false, hr]
    refine ⟨_, rfl, ?_, ?_, ?_⟩
    · simp [insertMap, Ne.symm hrc]
    · simp [insertMap, hrc]
    · show (reach admin ops).total_supply + d + d / 100 =
        (reach admin ops).total_supply + (d + d / 100)
      omega

/-- Claim C2 witness: account 1 registers referrer 2 and mints the minimum
deposit; the bonus is `MIN_DEPOSIT / 100`. -/
theorem C2_mint_witness :
    MIN_DEPOSIT ≤ MIN_DEPOSIT ∧
    (reach 0 [Op.register_referral 1 2]).referrals 1 = some 2 ∧
    (∃ s2, mint (reach 0 [Op.register_referral 1 2]) 1 MIN_DEPOSIT = .ok s2 ∧
      s2.balances 1 = (reach 0 [Op.register_referral 1 2]).balances 1 + MIN_DEPOSIT ∧
      s2.balances 2 = (reach 0 [Op.register_referral 1 2]).balances 2 + MIN_DEPOSIT / 100 ∧
      s2.total_supply = (reach 0 [Op.register_referral 1 2]).total_supply +
        (MIN_DEPOSIT + MIN_DEPOSIT / 100)) :=
  ⟨le_refl _, rfl,
    (C2_mint_spec 0 [Op.register_referral 1 2] 1 MIN_DEPOSIT).2.2 (le_refl _) 2 rfl⟩

/-- Claim C8: `register_referral` fails with `SelfReferral` when the
referrer is the caller (regardless of any existing edge), fails with
`AlreadyRegistered` when an edge already exists (so a second registration
always fails, whatever the new referrer), and otherwise records the edge,
which no later sequence of operations ever overwrites or removes. -/
theorem C8_register_referral_spec (s : Contract) (caller referrer : AccountId) :
    (referrer = caller → register_referral s caller referrer = .error .SelfReferral) ∧
    (referrer ≠ caller → ∀ r, s.referrals caller = some r →
      register_referral s caller referrer = .error .AlreadyRegistered) ∧
    (∀ r, s.referrals caller = some r → ∀ r2,
      register_referral s caller r2 = .error .SelfReferral ∨
      register_referral s caller r2 = .error .AlreadyRegistered) ∧
    (referrer ≠ caller → s.referrals caller = none →
      ∃ s2, register_referral s caller referrer = .ok s2 ∧
        s2.referrals caller = some referrer ∧
        (∀ ops, (run s2 ops).referrals caller = some referrer)) ∧
    (∀ r ops, s.referrals caller = some r → (run s ops).referrals caller = some r) := by
  refine ⟨?_, ?_, ?_, ?_, ?_⟩
  · intro h
    simp [register_referral, h]
  · intro hrc r hr
    have hcr : ¬ caller = referrer := fun he => hrc he.symm
    simp [register_referral, hcr, hr]
  · intro r hr r2
    by_cases h2 : caller = r2
    · left
      simp [register_referral, h2]
    · right
      simp [register_referral, h2, hr]
  · intro hrc hnone
    have hcr : ¬ caller = referrer := fun he => hrc he.symm
    simp only [register_referral, hcr, if_false, hnone]
    refine ⟨_, rfl, insertMap_same _ _ _, ?_⟩
    intro ops
    exact run_referral_persist _ ops caller referrer (insertMap_same _ _ _)
  · intro r ops hr
    exact run_referral_persist s ops caller r hr

/-- Claim C8 witness: account 1 registers referrer 2 in the fresh state and
the edge persists across a later mint and tip. -/
theorem C8_register_referral_witness :
    (2 : AccountId) ≠ 1 ∧ (Contract.new 0).referrals 1 = none ∧
    (∃ s2, register_referral (Contract.new 0) 1 2 = .ok s2 ∧
      s2.referrals 1 = some 2 ∧
      (∀ ops, (run s2 ops).referrals 1 = some 2)) :=
  ⟨by decide, rfl,
    (C8_register_referral_spec (Contract.new 0) 1 2).2.2.2.1 (by decide) rfl⟩

/-- Claim C6: `vote` fails with `NoVotingPower` for a caller with zero
balance, with `ProposalNotFound` for a missing proposal id (checked after
voting power), and with `VotingEnded` once `now` is at or past the
deadline; on success it adds the caller's current balance to `votes_for`
or `votes_against` according to `support`, and an immediate repeat call by
the same voter adds the current balance again. -/
theorem C6_vote_spec (s : Contract) (caller : AccountId) (pid : Nat)
    (support : Bool) (now : Nat) :
    (get_balance s caller = 0 →
      vote s caller pid support now = .error .NoVotingPower) ∧
    (0 < get_balance s caller → s.proposals pid = none →
      vote s caller pid support now = .error .ProposalNotFound) ∧
    (∀ p, 0 < get_balance s caller → s.proposals pid = some p → p.deadline ≤ now →
      vote s caller pid support now = .error .VotingEnded) ∧
    (∀ p, 0 < get_balance s caller → s.proposals pid = some p → now < p.deadline →
      ∃ s2, vote s caller pid support now = .ok s2 ∧
        s2.balances caller = s.balances caller ∧
        s2.proposals pid = some (if support then
            { p with votes_for := p.votes_for + s.balances caller }
          else
            { p with votes_against := p.votes_against + s.balances caller }) ∧
        ∃ s3, vote s2 caller pid support now = .ok s3 ∧
          s3.proposals pid = some (if support then
              { p with votes_for := p.votes_for + s.balances caller + s.balances caller }
            else
              { p with votes_against := p.votes_against + s.balances caller
                  + s.balances caller })) := by
  refine ⟨?_, ?_, ?_, ?_⟩
  · intro h0
    rw [get_balance] at h0
    simp [vote, h0]
  · intro hpos hnone
    rw [get_balance] at hpos
    have hne : ¬ s.balances caller = 0 := by omega
    simp [vote, hne, hnone]
  · intro p hpos hp hdl
    rw [get_balance] at hpos
    have hne : ¬ s.balances caller = 0 := by omega
    have hnl : ¬ now < p.deadline := not_lt.mpr hdl
    simp [vote, hne, hp, hnl]
  · intro p hpos hp hdl
    rw [get_balance] at hpos
    have hne : ¬ s.balances caller = 0 := by omega
    cases support <;>
      simp only [vote, hne, if_false, hp, hdl, if_true, Bool.false_eq_true,
        insertMap_same] <;>
      refine ⟨_, rfl, rfl, insertMap_same _ _ _, ?_⟩ <;>
      simp only [vote, hne, if_false, hp, hdl, if_true, Bool.false_eq_true,
        insertMap_same] <;>
      exact ⟨_, rfl, insertMap_same _ _ _⟩

/-- Claim C6 witness: account 1 holds the minimum deposit and votes in
favor of proposal 0 at time 5, twice in a row. -/
theorem C6_vote_witness :
    0 < get_balance c6state 1 ∧
    c6state.proposals 0 = some c6prop ∧
    (5 : Nat) < c6prop.deadline ∧
    (∃ s2, vote c6state 1 0 true 5 = .ok s2 ∧
      s2.balances 1 = c6state.balances 1 ∧
      s2.proposals 0 = some (if true then
          { c6prop with votes_for := c6prop.votes_for + c6state.balances 1 }
        else
          { c6prop with votes_against := c6prop.votes_against + c6state.balances 1 }) ∧
      ∃ s3, vote s2 1 0 true 5 = .ok s3 ∧
        s3.proposals 0 = some (if true then
            { c6prop with votes_for := c6prop.votes_for + c6state.balances 1
                + c6state.balances 1 }
          else
            { c6prop with votes_against := c6prop.votes_against + c6state.balances 1
                + c6state.balances 1 })) :=
  ⟨by decide, rfl, by decide,
    (C6_vote_spec c6state 1 0 true 5).2.2.2 c6prop (by decide) rfl (by decide)⟩

-- ### Governance invariants

theorem applyOp_proposal_ids (s : Contract) (op : Op) (s2 : Contract)
    (hs : ProposalIdsBounded s) (h : applyOp s op = .ok s2) :
    ProposalIdsBounded s2 := by
  cases op
  case propose caller description now =>
    simp only [applyOp, propose] at h
    split at h
    · cases h
      intro pid hpid
      have hpid2 : s.next_proposal_id + 1 ≤ pid := hpid
      have hne : pid ≠ s.next_proposal_id := by
        show ¬ pid = s.next_proposal_id
        omega
      show insertMap s.proposals s.next_proposal_id _ pid = none
      rw [insertMap_other _ _ _ _ hne]
      exact hs pid (by omega)
    · cases h
  case vote caller pid2 support now =>
    simp only [applyOp, vote] at h
    split at h
    · cases h
    · split at h
      · cases h
      · rename_i proposal hp
        split at h
        · cases h
          intro pid hpid
          have hne : pid ≠ pid2 := by
            intro he
            have hnone := hs pid hpid
            rw [he, hp] at hnone
            exact Option.noConfusion hnone
          show insertMap s.proposals pid2 _ pid = none
          rw [insertMap_other _ _ _ _ hne]
          exact hs pid hpid
        · cases h
  case finalize_proposal caller pid2 now =>
    simp only [applyOp, finalize_proposal] at h
    split at h
    · split at h
      · cases h
      · rename_i proposal hp
        split at h
        · cases h
        · cases h
          intro pid hpid
          have hne : pid ≠ pid2 := by
            intro he
            have hnone := hs pid hpid
            rw [he, hp] at hnone
            exact Option.noConfusion hnone
          show insertMap s.proposals pid2 _ pid = none
          rw [insertMap_other _ _ _ _ hne]
          exact hs pid hpid
    · cases h
  all_goals
    simp only [applyOp, mint, tip, withdraw, burn, stake, unstake, claim_rewards,
      register_referral, nft_mint] at h <;>
    (repeat' split at h) <;> cases h <;> exact hs

theorem stepResult_proposal_ids (s : Contract) (op : Op)
    (hs : ProposalIdsBounded s) : ProposalIdsBounded (stepResult s op) := by
  unfold stepResult
  cases h : applyOp s op with
  | error e => exact hs
  | ok s2 => exact applyOp_proposal_ids s op s2 hs h

theorem reach_proposal_ids (admin : AccountId) (ops : List Op) :
    ProposalIdsBounded (reach admin ops) :=
  run_preserves stepResult_proposal_ids ops (Contract.new admin) (fun _ _ => rfl)

/-- How a single successful call can change an already-existing proposal:
it is untouched, or updated by a `vote` on its id (which never changes
`finalized` or `deadline`), or marked finalized by the admin via
`finalize_proposal` once its deadline has passed. -/
theorem applyOp_proposal_change (s : Contract) (op : Op) (s2 : Contract)
    (pid : Nat) (p p2 : Proposal)
    (hs : ProposalIdsBounded s)
    (hp : s.proposals pid = some p)
    (h : applyOp s op = .ok s2)
    (hp2 : s2.proposals pid = some p2) :
    p2 = p ∨
    (∃ caller support now, op = Op.vote caller pid support now ∧
      p2.finalized = p.finalized ∧ p2.deadline = p.deadline) ∨
    (∃ now, op = Op.finalize_proposal s.admin pid now ∧ p.deadline ≤ now ∧
      p2 = { p with finalized := true }) := by
  cases op
  case propose caller description now =>
    simp only [applyOp, propose] at h
    split at h
    · cases h
      left
      have hlt : ¬ s.next_proposal_id ≤ pid := by
        intro hle
        have hnone := hs pid hle
        rw [hp] at hnone
        exact Option.noConfusion hnone
      have hne : pid ≠ s.next_proposal_id := by
        show ¬ pid = s.next_proposal_id
        omega
      have hp2b : insertMap s.proposals s.next_proposal_id _ pid = some p2 := hp2
      rw [insertMap_other _ _ _ _ hne] at hp2b
      rw [hp] at hp2b
      exact (Option.some.inj hp2b).symm
    · cases h
  case vote caller pid2 support now =>
    simp only [applyOp, vote] at h
    split at h
    · cases h
    · split at h
      · cases h
      · rename_i proposal hpp
        split at h
        · cases h
          by_cases hpe : pid = pid2
          · subst hpe
            rw [hp] at hpp
            replace hpp := Option.some.inj hpp
            subst hpp
            have hp2b : insertMap s.proposals pid _ pid = some p2 := hp2
            rw [insertMap_same] at hp2b
            cases hp2b
            refine Or.inr (Or.inl ⟨caller, support, now, rfl, ?_, ?_⟩)
            · cases support <;> rfl
            · cases support <;> rfl
          · left
            have hp2b : insertMap s.proposals pid2 _ pid = some p2 := hp2
            rw [insertMap_other _ _ _ _ hpe] at hp2b
            rw [hp] at hp2b
            exact (Option.some.inj hp2b).symm
        · cases h
  case finalize_proposal caller pid2 now =>
    simp only [applyOp, finalize_proposal] at h
    split at h
    · rename_i hadm
      split at h
      · cases h
      · rename_i proposal hpp
        split at h
        · cases h
        · rename_i hdl
          cases h
          by_cases hpe : pid = pid2
          · subst hpe
            rw [hp] at hpp
            replace hpp := Option.some.inj hpp
            subst hpp
            have hp2b : insertMap s.proposals pid (some { p with finalized := true })
                pid = some p2 := hp2
            rw [insertMap_same] at hp2b
            cases hp2b
            refine Or.inr (Or.inr ⟨now, ?_, not_lt.mp hdl, rfl⟩)
            rw [hadm]
          · left
            have hp2b : insertMap s.proposals pid2 _ pid = some p2 := hp2
            rw [insertMap_other _ _ _ _ hpe] at hp2b
            rw [hp] at hp2b
            exact (Option.some.inj hp2b).symm
    · cases h
  all_goals
    simp only [applyOp, mint, tip, withdraw, burn, stake, unstake, claim_rewards,
      register_referral, nft_mint] at h <;>
    (repeat' split at h) <;> cases h <;>
    (left
     have hp2b : s.proposals pid = some p2 := hp2
     rw [hp] at hp2b
     exact (Option.some.inj hp2b).symm)

theorem stepResult_proposal_change (s : Contract) (op : Op)
    (pid : Nat) (p p2 : Proposal)
    (hs : ProposalIdsBounded s)
    (hp : s.proposals pid = some p)
    (hp2 : (stepResult s op).proposals pid = some p2) :
    p2 = p ∨
    (∃ caller support now, op = Op.vote caller pid support now ∧
      p2.finalized = p.finalized ∧ p2.deadline = p.deadline) ∨
    (∃ now, op = Op.finalize_proposal s.admin pid now ∧ p.deadline ≤ now ∧
      p2 = { p with finalized := true }) := by
  revert hp2
  unfold stepResult
  cases h : applyOp s op with
  | error e =>
    intro hp2
    left
    rw [hp] at hp2
    exact (Option.some.inj hp2).symm
  | ok s2 =>
    intro hp2
    exact applyOp_proposal_change s op s2 pid p p2 hs hp h hp2

theorem reach_admin (admin : AccountId) (ops : List Op) :
    (reach admin ops).admin = admin :=
  run_admin (Contract.new admin) ops

/-- Claim C1 (amended): in any reachable state, `finalize_proposal` called
by the admin before a proposal's deadline fails with `VotingNotEnded` and
leaves the state unchanged; once `now ≥ deadline` it succeeds and sets
`finalized = true` — and it succeeds again on repeat calls (the code has no
double-finalization guard), which merely re-set `finalized = true`.  As a
stored value, `finalized` flips false→true at most once: no operation ever
resets it to false, and the only operation that turns it true is a
`finalize_proposal` by the admin with `now` at or past the deadline. -/
theorem C1_finalize_spec (admin : AccountId) (ops : List Op) :
    (∀ pid p now, (reach admin ops).proposals pid = some p → now < p.deadline →
      finalize_proposal (reach admin ops) (reach admin ops).admin pid now =
        .error .VotingNotEnded ∧
      stepResult (reach admin ops) (.finalize_proposal (reach admin ops).admin pid now) =
        reach admin ops) ∧
    (∀ pid p now, (reach admin ops).proposals pid = some p → p.deadline ≤ now →
      finalize_proposal (reach admin ops) (reach admin ops).admin pid now =
        .ok { reach admin ops with
              proposals := insertMap (reach admin ops).proposals pid
                (some { p with finalized := true }) }) ∧
    (∀ op pid p p2, (reach admin ops).proposals pid = some p →
      (stepResult (reach admin ops) op).proposals pid = some p2 →
      p.finalized = true → p2.finalized = true) ∧
    (∀ op pid p p2, (reach admin ops).proposals pid = some p →
      (stepResult (reach admin ops) op).proposals pid = some p2 →
      p.finalized = false → p2.finalized = true →
      ∃ now, op = Op.finalize_proposal admin pid now ∧ p.deadline ≤ now ∧
        p2 = { p with finalized := true }) := by
  refine ⟨?_, ?_, ?_, ?_⟩
  · intro pid p now hp hlt
    constructor
    · simp [finalize_proposal, hp, hlt]
    · simp [stepResult, applyOp, finalize_proposal, hp, hlt]
  · intro pid p now hp hdl
    have hnl : ¬ now < p.deadline := not_lt.mpr hdl
    simp [finalize_proposal, hp, hnl]
  · intro op pid p p2 hp hp2 hfin
    rcases stepResult_proposal_change (reach admin ops) op pid p p2
        (reach_proposal_ids admin ops) hp hp2 with he | ⟨c, su, n, _, hf, _⟩ | ⟨n, _, _, he⟩
    · rw [he, hfin]
    · rw [hf, hfin]
    · rw [he]
  · intro op pid p p2 hp hp2 hfalse htrue
    rcases stepResult_proposal_change (reach admin ops) op pid p p2
        (reach_proposal_ids admin ops) hp hp2 with he | ⟨c, su, n, _, hf, _⟩ | ⟨n, hop, hdl, he⟩
    · rw [he, hfalse] at htrue
      exact Bool.noConfusion htrue
    · rw [hf, hfalse] at htrue
      exact Bool.noConfusion htrue
    · rw [reach_admin] at hop
      exact ⟨n, hop, hdl, he⟩

/-- Claim C1 counterexample: proposal 0 is already finalized in `c1done`,
yet a second admin `finalize_proposal` call after the deadline succeeds
again instead of failing, refuting "after the deadline it succeeds exactly
once". -/
theorem C1_finalize_counterexample :
    c1done.proposals 0 = some c1fin ∧ c1fin.finalized = true ∧
    (∃ s2, finalize_proposal c1done 0 0 SEVEN_DAYS = .ok s2 ∧
      s2.proposals 0 = some c1fin) :=
  ⟨rfl, rfl, ⟨_, rfl, rfl⟩⟩

/-- Claim C1 witness: concrete runs exercising each conjunct of
`C1_finalize_spec` — failing early finalize, successful finalize at the
deadline, monotonicity of `finalized` across an unrelated call, and the
false→true flip being attributable only to an in-deadline finalize. -/
theorem C1_finalize_witness :
    (c1state.proposals 0 = some c1prop ∧ (5 : Nat) < c1prop.deadline ∧
      (finalize_proposal c1state c1state.admin 0 5 = .error .VotingNotEnded ∧
       stepResult c1state (.finalize_proposal c1state.admin 0 5) = c1state)) ∧
    (c1prop.deadline ≤ SEVEN_DAYS ∧
      finalize_proposal c1state c1state.admin 0 SEVEN_DAYS =
        .ok { c1state with
              proposals := insertMap c1state.proposals 0
                (some { c1prop with finalized := true }) }) ∧
    (c1done.proposals 0 = some c1fin ∧
      (stepResult c1done (Op.nft_mint 0 5)).proposals 0 = some c1fin ∧
      c1fin.finalized = true ∧ c1fin.finalized = true) ∧
    (c1state.proposals 0 = some c1prop ∧
      (stepResult c1state (Op.finalize_proposal 0 0 SEVEN_DAYS)).proposals 0 = some c1fin ∧
      c1prop.finalized = false ∧ c1fin.finalized = true ∧
      (∃ now, Op.finalize_proposal 0 0 SEVEN_DAYS = Op.finalize_proposal 0 0 now ∧
        c1prop.deadline ≤ now ∧ c1fin = { c1prop with finalized := true })) :=
  ⟨⟨rfl, by decide, (C1_finalize_spec 0 [Op.propose 0 "" 0]).1 0 c1prop 5 rfl (by decide)⟩,
   ⟨by decide, (C1_finalize_spec 0 [Op.propose 0 "" 0]).2.1 0 c1prop SEVEN_DAYS rfl (by decide)⟩,
   ⟨rfl, rfl, rfl,
     (C1_finalize_spec 0 [Op.propose 0 "" 0, Op.finalize_proposal 0 0 SEVEN_DAYS]).2.2.1
       (Op.nft_mint 0 5) 0 c1fin c1fin rfl rfl rfl⟩,
   ⟨rfl, rfl, rfl, rfl,
     (C1_finalize_spec 0 [Op.propose 0 "" 0]).2.2.2
       (Op.finalize_proposal 0 0 SEVEN_DAYS) 0 c1prop c1fin rfl rfl rfl rfl⟩⟩

-- ### Top-tipper invariant

theorem applyOp_top_tipper (s : Contract) (op : Op) (s2 : Contract)
    (hs : TopTipperInv s) (h : applyOp s op = .ok s2) : TopTipperInv s2 := by
  obtain ⟨h1, h2⟩ := hs
  cases op
  case tip sender receiver amount =>
    simp only [applyOp, tip] at h
    split at h
    · cases h
    · cases h
      constructor
      · intro t
        rcases htop : s.top_tipper with _ | ct
        · intro ht a
          have ht2 : some sender = some t := ht
          cases ht2
          show insertMap s.tip_totals sender (s.tip_totals sender + amount) a ≤
            insertMap s.tip_totals sender (s.tip_totals sender + amount) sender
          rw [insertMap_same]
          have h0a := h2 htop a
          by_cases ha : a = sender
          · subst ha
            rw [insertMap_same]
          · rw [insertMap_other _ _ _ _ ha]
            omega
        · intro ht a
          have ht2 : (if insertMap s.tip_totals sender (s.tip_totals sender + amount) ct <
              s.tip_totals sender + amount then some sender else some ct) = some t := ht
          have hac := h1 ct htop a
          by_cases hif : insertMap s.tip_totals sender (s.tip_totals sender + amount) ct <
              s.tip_totals sender + amount
          · rw [if_pos hif] at ht2
            cases ht2
            show insertMap s.tip_totals sender (s.tip_totals sender + amount) a ≤
              insertMap s.tip_totals sender (s.tip_totals sender + amount) sender
            rw [insertMap_same]
            by_cases ha : a = sender
            · subst ha
              rw [insertMap_same]
            · rw [insertMap_other _ _ _ _ ha]
              by_cases hcs : ct = sender
              · rw [hcs, insertMap_same] at hif
                omega
              · rw [insertMap_other _ _ _ _ hcs] at hif
                omega
          · rw [if_neg hif] at ht2
            cases ht2
            show insertMap s.tip_totals sender (s.tip_totals sender + amount) a ≤
              insertMap s.tip_totals sender (s.tip_totals sender + amount) t
            by_cases ha : a = sender
            · subst ha
              rw [insertMap_same]
              omega
            · rw [insertMap_other _ _ _ _ ha]
              by_cases hcs : t = sender
              · rw [hcs, insertMap_same]
                have has := h1 t htop a
                rw [hcs] at has
                omega
              · rw [insertMap_other _ _ _ _ hcs]
                omega
      · rcases htop : s.top_tipper with _ | ct
        · intro hn
          have hn2 : some sender = (none : Option AccountId) := hn
          exact Option.noConfusion hn2
        · intro hn
          have hn2 : (if insertMap s.tip_totals sender (s.tip_totals sender + amount) ct <
              s.tip_totals sender + amount then some sender else some ct) = none := hn
          by_cases hif : insertMap s.tip_totals sender (s.tip_totals sender + amount) ct <
              s.tip_totals sender + amount
          · rw [if_pos hif] at hn2
            exact Option.noConfusion hn2
          · rw [if_neg hif] at hn2
            exact Option.noConfusion hn2
  all_goals
    simp only [applyOp, mint, withdraw, burn, stake, unstake, claim_rewards,
      register_referral, propose, vote, finalize_proposal, nft_mint] at h <;>
    (repeat' split at h) <;> cases h <;> exact ⟨h1, h2⟩

theorem stepResult_top_tipper (s : Contract) (op : Op) (hs : TopTipperInv s) :
    TopTipperInv (stepResult s op) := by
  unfold stepResult
  cases h : applyOp s op with
  | error e => exact hs
  | ok s2 => exact applyOp_top_tipper s op s2 hs h

theorem reach_top_tipper_inv (admin : AccountId) (ops : List Op) :
    TopTipperInv (reach admin ops) :=
  run_preserves stepResult_top_tipper ops (Contract.new admin)
    ⟨fun _ ht => Option.noConfusion ht, fun _ _ => rfl⟩

/-- Claim C4: in every reachable state the recorded top tipper (when one
exists) has a cumulative tip total at least as large as every other
account's; on a further tip by `sender`, when the incumbent `ct` differs
from the sender, the incumbent is retained whenever the sender's new total
is at most (in particular, exactly equal to) the incumbent's total, and
the sender takes over exactly when its new total strictly exceeds it; a
tip by the incumbent itself keeps the incumbent, and the first successful
tip installs its sender as top tipper. -/
theorem C4_top_tipper_correct (admin : AccountId) (ops : List Op) :
    (∀ t, get_top_tipper (reach admin ops) = some t →
      ∀ a, (reach admin ops).tip_totals a ≤ (reach admin ops).tip_totals t) ∧
    (∀ sender receiver amount s2 ct,
      (reach admin ops).top_tipper = some ct →
      tip (reach admin ops) sender receiver amount = .ok s2 →
      ((ct ≠ sender →
          (reach admin ops).tip_totals sender + amount ≤ (reach admin ops).tip_totals ct →
          s2.top_tipper = some ct) ∧
       (ct ≠ sender →
          (reach admin ops).tip_totals ct < (reach admin ops).tip_totals sender + amount →
          s2.top_tipper = some sender) ∧
       (ct = sender → s2.top_tipper = some ct))) ∧
    ((reach admin ops).top_tipper = none →
      ∀ sender receiver amount s2,
        tip (reach admin ops) sender receiver amount = .ok s2 →
        s2.top_tipper = some sender) := by
  refine ⟨?_, ?_, ?_⟩
  · exact fun t ht a => (reach_top_tipper_inv admin ops).1 t ht a
  · intro sender receiver amount s2 ct hct htip
    simp only [tip] at htip
    split at htip
    · cases htip
    · cases htip
      refine ⟨?_, ?_, ?_⟩
      · intro hne hle
        rw [hct]
        have hcond : ¬ insertMap (reach admin ops).tip_totals sender
            ((reach admin ops).tip_totals sender + amount) ct <
            (reach admin ops).tip_totals sender + amount := by
          rw [insertMap_other _ _ _ _ hne]
          omega
        show (if insertMap (reach admin ops).tip_totals sender
            ((reach admin ops).tip_totals sender + amount) ct <
            (reach admin ops).tip_totals sender + amount then some sender
          else some ct) = some ct
        rw [if_neg hcond]
      · intro hne hlt
        rw [hct]
        have hcond : insertMap (reach admin ops).tip_totals sender
            ((reach admin ops).tip_totals sender + amount) ct <
            (reach admin ops).tip_totals sender + amount := by
          rw [insertMap_other _ _ _ _ hne]
          omega
        show (if insertMap (reach admin ops).tip_totals sender
            ((reach admin ops).tip_totals sender + amount) ct <
            (reach admin ops).tip_totals sender + amount then some sender
          else some ct) = some sender
        rw [if_pos hcond]
      · intro hcs
        subst hcs
        rw [hct]
        have hcond : ¬ insertMap (reach admin ops).tip_totals ct
            ((reach admin ops).tip_totals ct + amount) ct <
            (reach admin ops).tip_totals ct + amount := by
          rw [insertMap_same]
          omega
        show (if insertMap (reach admin ops).tip_totals ct
            ((reach admin ops).tip_totals ct + amount) ct <
            (reach admin ops).tip_totals ct + amount then some ct
          else some ct) = some ct
        rw [if_neg hcond]
  · intro hnone sender receiver amount s2 htip
    simp only [tip] at htip
    split at htip
    · cases htip
    · cases htip
      rw [hnone]

/-- Claim C4 witness: in `c4state` the top tipper is account 1 and its
total dominates account 2; a tip of 7 by account 2 is characterized by the
tie/strict rules, and the very first tip in a fresh state installs its
sender. -/
theorem C4_top_tipper_witness :
    get_top_tipper c4state = some 1 ∧
    c4state.top_tipper = some 1 ∧
    tip c4state 2 3 7 = .ok (stepResult c4state (Op.tip 2 3 7)) ∧
    c4state.tip_totals 2 ≤ c4state.tip_totals 1 ∧
    (((1 : AccountId) ≠ 2 →
        c4state.tip_totals 2 + 7 ≤ c4state.tip_totals 1 →
        (stepResult c4state (Op.tip 2 3 7)).top_tipper = some 1) ∧
     ((1 : AccountId) ≠ 2 →
        c4state.tip_totals 1 < c4state.tip_totals 2 + 7 →
        (stepResult c4state (Op.tip 2 3 7)).top_tipper = some 2) ∧
     ((1 : AccountId) = 2 → (stepResult c4state (Op.tip 2 3 7)).top_tipper = some 1)) ∧
    ((reach 0 []).top_tipper = none ∧
      tip (reach 0 []) 4 5 0 = .ok (stepResult (reach 0 []) (Op.tip 4 5 0)) ∧
      (stepResult (reach 0 []) (Op.tip 4 5 0)).top_tipper = some 4) :=
  ⟨rfl, rfl, rfl, (C4_top_tipper_correct 0 c4ops).1 1 rfl 2,
    (C4_top_tipper_correct 0 c4ops).2.1 2 3 7 (stepResult c4state (Op.tip 2 3 7)) 1 rfl rfl,
    ⟨rfl, rfl,
      (C4_top_tipper_correct 0 []).2.2 rfl 4 5 0 (stepResult (reach 0 []) (Op.tip 4 5 0)) rfl⟩⟩
